import Mathlib

/-!
Shallow embedding of the cleaning and feature-engineering core of the
e-commerce analysis pipeline (src/data_cleaning.py and
src/feature_engineering.py), together with theorems settling the
specification claims about it.

Modelling conventions:
* a pandas DataFrame is a `Table`: a list of column names plus a list of
  rows, each row a list of cell values aligned with the column list;
* floats are modelled as exact rationals;
* datetimes are modelled as an integer date code;
* NaN / NaT / None are the single missing value `Value.vNull`;
* an operation that can raise returns `Except String Table`, the error
  string naming the Python exception class;
* numpy scalar division by zero yields NaN (with a warning, not an
  exception), while Python integer division by zero raises
  ZeroDivisionError; only the latter is modelled as an error.
-/

deriving instance DecidableEq for Except

attribute [local semireducible] Rat.add Rat.mul Rat.inv Rat.sub Rat.ofScientific

set_option maxRecDepth 8000

namespace ECom

/-- Cell values of a DataFrame: strings, integers, floats (as exact
rationals), datetimes (as an integer date code) and missing values. -/
inductive Value where
  | vStr (s : String)
  | vInt (n : Int)
  | vRat (q : ℚ)
  | vDate (d : Int)
  | vNull
deriving DecidableEq, Repr

/-- A DataFrame: column names plus rows of cell values aligned with the
column list. -/
structure Table where
  cols : List String
  rows : List (List Value)
deriving DecidableEq, Repr

/-- Index of the first matching element (position of a column label). -/
def findIdxA {α : Type} (p : α → Bool) : List α → Option Nat
  | [] => none
  | a :: l => if p a then some 0 else (findIdxA p l).map (· + 1)

/-- Position of a column label in a table, `none` when the column is
absent (a lookup that pandas surfaces as a KeyError). -/
def colIdx (t : Table) (c : String) : Option Nat :=
  findIdxA (fun d => d == c) t.cols

/-- The cell of a row at a column position (missing cells read as null). -/
def cell (r : List Value) (i : Nat) : Value := r.getD i Value.vNull

/-- One whole column of a table. -/
def getCol (t : Table) (i : Nat) : List Value := t.rows.map (fun r => cell r i)

/-- Overwrite one column of a table (a `df[col] = series` assignment). -/
def setCol (t : Table) (i : Nat) (vs : List Value) : Table :=
  { t with rows := List.zipWith (fun r v => r.set i v) t.rows vs }

/-- `astype(str)` on one cell, as used by `remove_cancelled_orders`;
pandas renders a missing value as the string "nan". -/
def pyStr : Value → String
  | .vStr s => s
  | .vInt n => toString n
  | .vRat q => toString q
  | .vDate d => toString d
  | .vNull => "nan"

/-- `str.startswith` on the text rendering of a cell. -/
def strStartsWith (s pre : String) : Bool := pre.data.isPrefixOf s.data

/-- Whether a cell is missing (`isna`). -/
def isMissing : Value → Bool
  | .vNull => true
  | _ => false

/-- Whether a cell is already datetime-typed or missing (NaT), the cells
on which `pd.to_datetime` is the identity. -/
def isDateOrNull : Value → Bool
  | .vDate _ => true
  | .vNull => true
  | _ => false

/-- A numeric `>=` mask entry against a constant: NaN and non-numeric
cells compare as False. -/
def geQ (v : Value) (q : ℚ) : Bool :=
  match v with
  | .vInt n => decide (q ≤ (n : ℚ))
  | .vRat x => decide (q ≤ x)
  | _ => false

/-- A numeric `<=` mask entry against a constant: NaN and non-numeric
cells compare as False. -/
def leQ (v : Value) (q : ℚ) : Bool :=
  match v with
  | .vInt n => decide ((n : ℚ) ≤ q)
  | .vRat x => decide (x ≤ q)
  | _ => false

/-- Split a character list at dashes. -/
def splitDash : List Char → List (List Char)
  | [] => [[]]
  | c :: cs =>
    let r := splitDash cs
    if c = '-' then [] :: r
    else
      match r with
      | [] => [[c]]
      | g :: gs => (c :: g) :: gs

/-- Digits of a character list as a number, `none` on a non-digit. -/
def digitsToNat : List Char → Option Nat
  | [] => none
  | cs =>
    cs.foldl
      (fun acc c =>
        match acc with
        | none => none
        | some n => if c.isDigit then some (n * 10 + (c.toNat - 48)) else none)
      (some 0)

/-- Modelled abstraction of `pd.to_datetime` on one string: an ISO
YYYY-MM-DD date parses to the integer code y*10000 + m*100 + d; other
strings fail to parse (raising in pandas). -/
def parseDate (s : String) : Option Int :=
  match splitDash s.data with
  | [y, m, d] =>
    match digitsToNat y, digitsToNat m, digitsToNat d with
    | some yn, some mn, some dn =>
      if 1 ≤ mn ∧ mn ≤ 12 ∧ 1 ≤ dn ∧ dn ≤ 31 then
        some ((yn : Int) * 10000 + (mn : Int) * 100 + (dn : Int))
      else none
    | _, _, _ => none
  | _ => none

/-- Conversion of one cell to a declared dtype, as attempted inside
`convert_data_types`; `none` models a conversion error raised on that
value. `to_datetime` accepts NaN (giving NaT) and integers; the dtypes
other than datetime64 are modelled only as far as the repository
exercises them (the cleaning pipeline converts only InvoiceDate to
datetime64). -/
def convVal (v : Value) (dty : String) : Option Value :=
  if dty == "datetime64" then
    match v with
    | .vDate d => some (.vDate d)
    | .vNull => some .vNull
    | .vStr s => (parseDate s).map .vDate
    | .vInt n => some (.vDate n)
    | .vRat _ => none
  else if dty == "int64" then
    match v with
    | .vInt n => some (.vInt n)
    | .vRat x => some (.vInt (Int.tdiv x.num x.den))
    | .vStr s => (digitsToNat s.data).map (fun n => .vInt (n : Int))
    | _ => none
  else if dty == "float64" then
    match v with
    | .vInt n => some (.vRat (n : ℚ))
    | .vRat x => some (.vRat x)
    | .vNull => some .vNull
    | _ => none
  else if dty == "str" then some (.vStr (pyStr v))
  else none

/-- Column-wise conversion (`pd.to_datetime(series)` / `astype`): the
whole column converts, or the attempt raises on some value and the
column conversion as a whole fails. -/
def convColumn (dty : String) : List Value → Option (List Value)
  | [] => some []
  | v :: vs =>
    match convVal v dty, convColumn dty vs with
    | some w, some ws => some (w :: ws)
    | _, _ => none

/-- `remove_cancelled_orders`: drop rows whose invoice id, rendered as
text, starts with the cancelled-order marker. The logged percentage
divides two numpy scalars, which on an empty table yields NaN rather
than an exception, so only the column lookup can fail. -/
def remove_cancelled_orders (t : Table) (invoiceColumn : String := "InvoiceNo")
    (marker : String := "C") : Except String Table :=
  match colIdx t invoiceColumn with
  | none => .error ("KeyError: " ++ invoiceColumn)
  | some i =>
    .ok { t with rows :=
      t.rows.filter (fun r => !(strStartsWith (pyStr (cell r i)) marker)) }

/-- Whether a row survives `dropna(subset=columns, how=how)`: with
how = "all" a row is dropped only when every listed column is missing,
otherwise (the "any" default) when some listed column is missing. -/
def keepRowMissing (t : Table) (columns : List String) (how : String)
    (r : List Value) : Bool :=
  if how == "all" then
    !(columns.all (fun c => isMissing (cell r ((colIdx t c).getD 0))))
  else
    !(columns.any (fun c => isMissing (cell r ((colIdx t c).getD 0))))

/-- `remove_missing_values`: `dropna` over the listed columns. A missing
column is a KeyError; afterwards the logged percentage
`removed / original_rows` is Python integer division, which raises
ZeroDivisionError when the input table has no rows. -/
def remove_missing_values (t : Table) (columns : List String)
    (how : String := "any") : Except String Table :=
  match columns.find? (fun c => (colIdx t c).isNone) with
  | some c => .error ("KeyError: " ++ c)
  | none =>
    if t.rows.length = 0 then .error "ZeroDivisionError"
    else .ok { t with rows := t.rows.filter (keepRowMissing t columns how) }

/-- `remove_invalid_quantities`: keep rows whose quantity is at least the
configured minimum (the mask is False on NaN). -/
def remove_invalid_quantities (t : Table) (quantityColumn : String := "Quantity")
    (minQuantity : ℚ := 1) : Except String Table :=
  match colIdx t quantityColumn with
  | none => .error ("KeyError: " ++ quantityColumn)
  | some i =>
    .ok { t with rows := t.rows.filter (fun r => geQ (cell r i) minQuantity) }

/-- `remove_invalid_prices`: keep rows whose price lies within
[minPrice, maxPrice] (the mask is False on NaN). -/
def remove_invalid_prices (t : Table) (priceColumn : String := "UnitPrice")
    (minPrice : ℚ := 1/100) (maxPrice : ℚ := 100000) : Except String Table :=
  match colIdx t priceColumn with
  | none => .error ("KeyError: " ++ priceColumn)
  | some i =>
    .ok { t with rows :=
      t.rows.filter (fun r => geQ (cell r i) minPrice && leQ (cell r i) maxPrice) }

/-- The duplicate key of a row: the whole row when no column subset is
given, otherwise its cells in the listed columns. -/
def rowKey (t : Table) (sub : Option (List String)) (r : List Value) : List Value :=
  match sub with
  | none => r
  | some cs => cs.map (fun c => cell r ((colIdx t c).getD 0))

/-- `drop_duplicates(keep="first")`: keep the first occurrence of every
key. -/
def dropDupFirst (key : List Value → List Value) (seen : List (List Value)) :
    List (List Value) → List (List Value)
  | [] => []
  | r :: rs =>
    if key r ∈ seen then dropDupFirst key seen rs
    else r :: dropDupFirst key (key r :: seen) rs

/-- `drop_duplicates(keep="last")`: keep a row only when no later row has
the same key (original order preserved). -/
def dropDupLast (key : List Value → List Value) :
    List (List Value) → List (List Value)
  | [] => []
  | r :: rs =>
    if (rs.map key).contains (key r) then dropDupLast key rs
    else r :: dropDupLast key rs

/-- `remove_duplicates`: drop duplicate rows over an optional column
subset; a listed column that is absent is a KeyError. The logged
percentage divides numpy scalars and cannot raise. -/
def remove_duplicates (t : Table) (sub : Option (List String) := none)
    (keep : String := "first") : Except String Table :=
  match sub with
  | some cs =>
    match cs.find? (fun c => (colIdx t c).isNone) with
    | some c => .error ("KeyError: " ++ c)
    | none =>
      if keep == "last" then .ok { t with rows := dropDupLast (rowKey t sub) t.rows }
      else .ok { t with rows := dropDupFirst (rowKey t sub) [] t.rows }
  | none =>
    if keep == "last" then .ok { t with rows := dropDupLast (rowKey t none) t.rows }
    else .ok { t with rows := dropDupFirst (rowKey t none) [] t.rows }

/-- One iteration of the `convert_data_types` loop: a missing column only
logs a warning, and a failing column conversion is caught and logged,
leaving that column exactly as it was. -/
def convertOneColumn (acc : Table) (cd : String × String) : Table :=
  match colIdx acc cd.1 with
  | some i =>
    match convColumn cd.2 (getCol acc i) with
    | some vs => setCol acc i vs
    | none => acc
  | none => acc

/-- `convert_data_types`: walk the type mapping in order, converting each
named column that resolves. The function itself never raises and touches
no column outside the mapping. -/
def convert_data_types (t : Table) (typeMappings : List (String × String)) : Table :=
  typeMappings.foldl convertOneColumn t

/-- `filter_by_date_range`. The source executes
`df[date_column] = pd.to_datetime(df[date_column])` on the caller
dataframe itself before filtering, so the call mutates its argument.
The first component of the result is the caller table after the call;
the second is the returned filtered table. An unparseable date value or
bound raises (uncaught). -/
def filter_by_date_range (t : Table) (dateColumn startDate endDate : String) :
    Except String (Table × Table) :=
  match colIdx t dateColumn with
  | none => .error ("KeyError: " ++ dateColumn)
  | some i =>
    match convColumn "datetime64" (getCol t i) with
    | none => .error "DateParseError"
    | some vs =>
      let t2 := setCol t i vs
      match parseDate startDate, parseDate endDate with
      | some ds, some de =>
        .ok (t2, { t2 with rows := t2.rows.filter (fun r =>
          match cell r i with
          | .vDate d => decide (ds ≤ d ∧ d ≤ de)
          | _ => false) })
      | _, _ => .error "DateParseError"

/-- `clean_ecommerce_data`: the fixed-order cleaning pipeline. The final
retention-rate log divides by `len(df)` with Python integers; that
division is only reached when the table surviving step 3 is non-empty,
which already forces the input to be non-empty. -/
def clean_ecommerce_data (t : Table) : Except String Table := do
  let s1 ← remove_cancelled_orders t
  let s2 := convert_data_types s1 [("InvoiceDate", "datetime64")]
  let s3 ← remove_missing_values s2 ["Description"]
  let s4 ← remove_invalid_quantities s3
  let s5 ← remove_invalid_prices s4
  let s6 ← remove_duplicates s5
  if t.rows.length = 0 then .error "ZeroDivisionError" else .ok s6

/-- The retention-rate summary logged at the end of
`clean_ecommerce_data`: rows kept over rows in, as a percentage. -/
def cleaning_retention_rate (t : Table) : Except String ℚ := do
  let u ← clean_ecommerce_data t
  if t.rows.length = 0 then .error "ZeroDivisionError"
  else .ok ((u.rows.length : ℚ) / (t.rows.length : ℚ) * 100)

/-! Feature engineering (src/feature_engineering.py), restricted to the
columns the claims are about. -/

/-- One row of the customer-metrics table, restricted to the columns read
by `create_rfm_scores` and `create_customer_segments`. -/
structure CustomerMetric where
  customerID : String
  recency_Days : ℚ
  totalOrders : ℚ
  customerLifetimeValue : ℚ
deriving DecidableEq, Repr

instance : Inhabited CustomerMetric := ⟨⟨"", 0, 0, 0⟩⟩

/-- `Series.rank(method="first")`: the rank of entry i is one plus the
number of entries that are strictly smaller, or equal but earlier in the
input order (ties broken by first appearance). -/
def rankFirst (vs : List ℚ) (i : ℕ) : ℕ :=
  1 + ((Finset.range vs.length).filter
        (fun j => vs.getD j 0 < vs.getD i 0 ∨ (vs.getD j 0 = vs.getD i 0 ∧ j < i))).card

/-- `rank(pct=True)`: the rank divided by the number of entries. -/
def pctRank (vs : List ℚ) (i : ℕ) : ℚ := (rankFirst vs i : ℚ) / (vs.length : ℚ)

/-- `pd.cut(x, bins=[0, .2, .4, .6, .8, 1.0])`: the 0-based index of the
half-open bin (k/5, (k+1)/5] containing x; `none` models the NaN produced
for a value outside (0, 1], on which the following `astype(int)` raises. -/
def cutBin5 (p : ℚ) : Option ℕ :=
  if p ≤ 0 then none
  else if p ≤ 1/5 then some 0
  else if p ≤ 2/5 then some 1
  else if p ≤ 3/5 then some 2
  else if p ≤ 4/5 then some 3
  else if p ≤ 1 then some 4
  else none

/-- R_Score: the five bins carry the labels [5, 4, 3, 2, 1], so the
lowest-recency bin scores 5 (recency is scored inversely). -/
def rScoreAt (recencies : List ℚ) (i : ℕ) : Option ℕ :=
  (cutBin5 (pctRank recencies i)).map (fun k => 5 - k)

/-- F_Score and M_Score: the five bins carry the labels [1, 2, 3, 4, 5]
(frequency and monetary value are scored directly). -/
def fmScoreAt (vs : List ℚ) (i : ℕ) : Option ℕ :=
  (cutBin5 (pctRank vs i)).map (fun k => k + 1)

/-- The decimal digit of a single-digit score, for the concatenated
RFM_Score string (`astype(str)`). -/
def scoreStr (n : ℕ) : String := ⟨[Char.ofNat (48 + n)]⟩

/-- A customer-metrics row extended with the R/F/M scores and the
concatenated RFM_Score string. -/
structure ScoredCustomer where
  base : CustomerMetric
  rScore : ℕ
  fScore : ℕ
  mScore : ℕ
  rfmScore : String
deriving DecidableEq, Repr

/-- Score every listed row index; an index whose bin is NaN makes the
whole call raise, mirroring `astype(int)` on a NaN-containing column. -/
def buildScores (recencies orders clvs : List ℚ) (cms : List CustomerMetric) :
    List ℕ → Except String (List ScoredCustomer)
  | [] => .ok []
  | i :: is =>
    match rScoreAt recencies i, fmScoreAt orders i, fmScoreAt clvs i,
        buildScores recencies orders clvs cms is with
    | some r, some f, some m, .ok rest =>
      .ok ({ base := cms.getD i default, rScore := r, fScore := f, mScore := m,
             rfmScore := scoreStr r ++ scoreStr f ++ scoreStr m } :: rest)
    | _, _, _, _ => .error "ValueError: astype int of NaN"

/-- `create_rfm_scores`: rank the Recency_Days, TotalOrders and
CustomerLifetimeValue columns independently (method first, pct=True), cut
each ranking into the five percentile bins, and concatenate the three
digits. -/
def create_rfm_scores (cms : List CustomerMetric) :
    Except String (List ScoredCustomer) :=
  buildScores (cms.map (fun c => c.recency_Days))
    (cms.map (fun c => c.totalOrders))
    (cms.map (fun c => c.customerLifetimeValue))
    cms (List.range cms.length)

/-- The inner `classify_rfm` of `create_customer_segments`: fixed
thresholds on the composite R + F + M sum. -/
def classify_rfm (r f m : ℤ) : String :=
  let score := r + f + m
  if 13 ≤ score then "Champions"
  else if 10 ≤ score then "Loyal Customers"
  else if 7 ≤ score then "Potential Loyalists"
  else if 5 ≤ score then "At Risk"
  else "Lost Customers"

/-- A scored customer extended with the CustomerSegment label. -/
structure SegmentedCustomer where
  scored : ScoredCustomer
  customerSegment : String
deriving DecidableEq, Repr

/-- `create_customer_segments`: apply `classify_rfm` row-wise. -/
def create_customer_segments (scs : List ScoredCustomer) : List SegmentedCustomer :=
  scs.map (fun sc =>
    { scored := sc,
      customerSegment := classify_rfm sc.rScore sc.fScore sc.mScore })

/-- One cleaned transaction row, restricted to the columns read by
`create_country_metrics`; customerID is `none` when CustomerID is
missing (excluded from `nunique`). -/
structure Txn where
  invoiceNo : String
  customerID : Option String
  country : String
  totalPrice : ℚ
deriving DecidableEq, Repr

/-- First-occurrence deduplication (distinct group keys / `nunique`). -/
def dedupF {α : Type} [DecidableEq α] : List α → List α
  | [] => []
  | a :: l => a :: (dedupF l).filter (fun b => decide (b ≠ a))

/-- The distinct countries of a transaction list. The group keys of a
pandas `groupby` come out sorted; the metrics are re-sorted by revenue
immediately afterwards, so first-occurrence order is used here. -/
def countryKeys (txns : List Txn) : List String :=
  dedupF (txns.map (fun x => x.country))

/-- The rows of one country group. -/
def countryGroup (txns : List Txn) (c : String) : List Txn :=
  txns.filter (fun x => decide (x.country = c))

/-- TotalPrice summed over one country group. -/
def countryRev (txns : List Txn) (c : String) : ℚ :=
  ((countryGroup txns c).map (fun x => x.totalPrice)).sum

/-- `country_agg["TotalRevenue"].sum()`: the group revenues summed. -/
def countryTotalRevenue (txns : List Txn) : ℚ :=
  ((countryKeys txns).map (countryRev txns)).sum

/-- Decimal rounding to two places (`Series.round(2)`), modelled exactly
over the rationals. -/
def round2 (q : ℚ) : ℚ := ((round (q * 100) : ℤ) : ℚ) / 100

/-- One row of the country-metrics table. -/
structure CountryMetric where
  country : String
  totalRevenue : ℚ
  totalOrders : ℕ
  uniqueCustomers : ℕ
  revenuePct : ℚ
deriving DecidableEq, Repr

/-- Descending-revenue order on country metrics. -/
def revGE (a b : CountryMetric) : Prop := b.totalRevenue ≤ a.totalRevenue

instance : DecidableRel revGE := fun a b => inferInstanceAs (Decidable (_ ≤ _))

instance : IsTotal CountryMetric revGE :=
  ⟨fun a b => le_total b.totalRevenue a.totalRevenue⟩

instance : IsTrans CountryMetric revGE :=
  ⟨fun _ _ _ h1 h2 => le_trans h2 h1⟩

/-- One row of the `country_agg` aggregation: group sums, `nunique`
counts over the group, and the revenue share of the group total, times
100, rounded to two decimals. (The zero-total division, which pandas
turns into NaN, is never reached under the claims, which assume positive
total revenue; over ℚ it reads as zero.) -/
def countryMetricRow (txns : List Txn) (c : String) : CountryMetric :=
  { country := c,
    totalRevenue := countryRev txns c,
    totalOrders := (dedupF ((countryGroup txns c).map (fun x => x.invoiceNo))).length,
    uniqueCustomers :=
      (dedupF (((countryGroup txns c).map (fun x => x.customerID)).filterMap id)).length,
    revenuePct := round2 (countryRev txns c / countryTotalRevenue txns * 100) }

/-- `create_country_metrics`: group by country, aggregate each group,
and sort the rows by TotalRevenue descending. -/
def create_country_metrics (txns : List Txn) : List CountryMetric :=
  List.insertionSort revGE ((countryKeys txns).map (countryMetricRow txns))

instance : Inhabited ScoredCustomer := ⟨⟨default, 0, 0, 0, ""⟩⟩

instance : Inhabited SegmentedCustomer := ⟨⟨default, ""⟩⟩

/-- The post-clean invariants of §3 of the specification, strengthened by
the two conditions the code additionally needs for a second pass to be
the identity: the referenced columns resolve, no invoice id starts with
the cancellation marker, the InvoiceDate column (when present) is
already datetime-typed (or NaT), no Description is missing, quantities
are at least 1, prices lie within [0.01, 100000], there are no exact
duplicate rows, and the table is non-empty. -/
def post_clean_invariant (t : Table) : Bool :=
  (colIdx t "InvoiceNo").isSome &&
  (colIdx t "Description").isSome &&
  (colIdx t "Quantity").isSome &&
  (colIdx t "UnitPrice").isSome &&
  t.rows.all (fun r =>
    !(strStartsWith (pyStr (cell r ((colIdx t "InvoiceNo").getD 0))) "C")) &&
  (match colIdx t "InvoiceDate" with
   | none => true
   | some i => (getCol t i).all isDateOrNull) &&
  t.rows.all (fun r => !(isMissing (cell r ((colIdx t "Description").getD 0)))) &&
  t.rows.all (fun r => geQ (cell r ((colIdx t "Quantity").getD 0)) 1) &&
  t.rows.all (fun r =>
    geQ (cell r ((colIdx t "UnitPrice").getD 0)) (1/100) &&
    leQ (cell r ((colIdx t "UnitPrice").getD 0)) 100000) &&
  decide t.rows.Nodup &&
  !(t.rows.isEmpty)

/-- Modelled from the spec: the §3 post-clean invariants exactly as the
specification words them — invoice id not a cancellation marker,
quantity at least the configured minimum, unit price within [min, max],
no nulls in the required column, no exact duplicate rows (plus the
referenced columns resolving). The specification does not require the
InvoiceDate column to be datetime-typed, nor the table non-empty. -/
def spec_post_clean_invariant (t : Table) : Bool :=
  (colIdx t "InvoiceNo").isSome &&
  (colIdx t "Description").isSome &&
  (colIdx t "Quantity").isSome &&
  (colIdx t "UnitPrice").isSome &&
  t.rows.all (fun r =>
    !(strStartsWith (pyStr (cell r ((colIdx t "InvoiceNo").getD 0))) "C")) &&
  t.rows.all (fun r => !(isMissing (cell r ((colIdx t "Description").getD 0)))) &&
  t.rows.all (fun r => geQ (cell r ((colIdx t "Quantity").getD 0)) 1) &&
  t.rows.all (fun r =>
    geQ (cell r ((colIdx t "UnitPrice").getD 0)) (1/100) &&
    leQ (cell r ((colIdx t "UnitPrice").getD 0)) 100000) &&
  decide t.rows.Nodup

/-! Concrete tables and inputs used by the witnesses, the
counterexamples and the failing-input theorems. -/

/-- The raw transaction schema. -/
def stdCols : List String :=
  ["InvoiceNo", "StockCode", "Description", "Quantity", "InvoiceDate",
   "UnitPrice", "CustomerID", "Country"]

/-- An empty (zero-row) transaction table with the full schema. -/
def emptyT : Table := ⟨stdCols, []⟩

/-- A fully valid transaction row (InvoiceDate still a string). -/
def goodRow : List Value :=
  [.vStr "536365", .vStr "85123A", .vStr "WHITE HANGING HEART", .vInt 6,
   .vStr "2010-12-01", .vRat (255/100), .vRat 17850, .vStr "United Kingdom"]

/-- `goodRow` after the pipeline coerces InvoiceDate to datetime. -/
def goodRowConv : List Value :=
  [.vStr "536365", .vStr "85123A", .vStr "WHITE HANGING HEART", .vInt 6,
   .vDate 20101201, .vRat (255/100), .vRat 17850, .vStr "United Kingdom"]

/-- A one-row table on which the whole pipeline succeeds. -/
def W4 : Table := ⟨stdCols, [goodRow]⟩

/-- The pipeline output for `W4`. -/
def W4out : Table := ⟨stdCols, [goodRowConv]⟩

/-- A non-empty table whose only row is a cancelled order: the cleaned
result should be empty, but step 3 of the pipeline divides by the
zero row count of the intermediate table. -/
def allCancelledT : Table := ⟨stdCols,
  [[.vStr "C536365", .vStr "85123A", .vStr "CREAM CUPID", .vInt 2,
    .vStr "2010-12-01", .vRat (275/100), .vRat 13047, .vStr "United Kingdom"]]⟩

/-- A table whose date column holds a parseable string: used to exhibit
the in-place mutation performed by `filter_by_date_range`. -/
def T2 : Table := ⟨["InvoiceDate", "X"], [[.vStr "2020-01-05", .vInt 3]]⟩

/-- `T2` as `filter_by_date_range` leaves the caller table: the date
column has been coerced to datetime in place. -/
def T2mut : Table := ⟨["InvoiceDate", "X"], [[.vDate 20200105, .vInt 3]]⟩

/-- A date-typed variant of `T2`, on which the date filter is pure. -/
def W2 : Table := ⟨["InvoiceDate", "X"], [[.vDate 20200105, .vInt 3]]⟩

/-- A one-column table whose value cannot be parsed as a datetime. -/
def T3 : Table := ⟨["A"], [[.vStr "xyz"]]⟩

/-- A two-column table used to check that unmapped columns survive type
coercion untouched. -/
def W3 : Table := ⟨["A", "B"], [[.vStr "xyz", .vStr "2020-01-05"]]⟩

/-- A two-row table satisfying the §3 post-clean invariants whose
InvoiceDate cells are still strings: the second row has an unparseable
date and a missing description. Running the pipeline drops the second
row while the date conversion of the whole column fails, so a second
run converts the surviving dates and changes the table. -/
def T5 : Table := ⟨stdCols,
  [goodRow,
   [.vStr "536366", .vStr "85123A", .vNull, .vInt 6,
    .vStr "xx", .vRat (255/100), .vRat 17850, .vStr "United Kingdom"]]⟩

/-- The first pipeline pass on `T5`: the bad row is gone but the
surviving InvoiceDate is still a string. -/
def T5out : Table := ⟨stdCols, [goodRow]⟩

/-- The second pipeline pass on `T5out`: the date is now converted. -/
def T5out2 : Table := ⟨stdCols, [goodRowConv]⟩

/-- A table without the columns the pipeline references. -/
def T6 : Table := ⟨["A"], [[.vInt 1]]⟩

/-- A three-customer metrics table for the RFM witnesses. -/
def CMS7 : List CustomerMetric :=
  [⟨"a", 10, 5, 100⟩, ⟨"b", 3, 1, 50⟩, ⟨"c", 10, 2, 70⟩]

/-- The scored output for `CMS7`. -/
def OUT7 : List ScoredCustomer :=
  [⟨⟨"a", 10, 5, 100⟩, 2, 5, 5, "255"⟩, ⟨⟨"b", 3, 1, 50⟩, 4, 2, 2, "422"⟩,
   ⟨⟨"c", 10, 2, 70⟩, 1, 4, 4, "144"⟩]

/-- Six single-transaction countries with equal revenue: each revenue
share rounds from 16.6667 to 16.67, so the rounded shares sum to
100.02. -/
def TX6 : List Txn :=
  [⟨"i1", some "c1", "A", 1⟩, ⟨"i2", some "c2", "B", 1⟩, ⟨"i3", some "c3", "C", 1⟩,
   ⟨"i4", some "c4", "D", 1⟩, ⟨"i5", some "c5", "E", 1⟩, ⟨"i6", some "c6", "F", 1⟩]

/-- A two-country transaction list with positive total revenue. -/
def TXW : List Txn :=
  [⟨"i1", some "c1", "A", 30⟩, ⟨"i2", some "c2", "B", 70⟩, ⟨"i3", none, "A", 20⟩]

/-- A table exercising every row-dropping rule: the second row is a
cancelled order with a missing description, a zero quantity and a zero
price, and the third row duplicates the first. -/
def W10 : Table := ⟨stdCols,
  [goodRow,
   [.vStr "C536367", .vStr "84406B", .vNull, .vInt 0,
    .vStr "2010-12-01", .vRat 0, .vRat 13047, .vStr "United Kingdom"],
   goodRow]⟩

/-- The second row of `W10`. -/
def badRow10 : List Value :=
  [.vStr "C536367", .vStr "84406B", .vNull, .vInt 0,
   .vStr "2010-12-01", .vRat 0, .vRat 13047, .vStr "United Kingdom"]

/-- `W10` with the cancelled / invalid second row removed. -/
def W10drop2 : Table := ⟨stdCols, [goodRow, goodRow]⟩

/-- `W10` with the duplicate third row removed. -/
def W10dedup : Table := ⟨stdCols, [goodRow, badRow10]⟩

/-! General lemmas about the embedding. -/

theorem bind_ok_iff {α β : Type} {e : Except String α} {f : α → Except String β} {b : β} :
    e >>= f = .ok b ↔ ∃ a, e = .ok a ∧ f a = .ok b := by
  cases e <;> simp [Bind.bind, Except.bind]

theorem set_cell_self (r : List Value) (i : ℕ) : r.set i (cell r i) = r := by
  induction r generalizing i with
  | nil => rfl
  | cons a l ih =>
    cases i with
    | zero => rfl
    | succ n =>
      show a :: l.set n (cell l n) = a :: l
      rw [ih]

theorem zipWith_set_cell (rows : List (List Value)) (i : ℕ) :
    List.zipWith (fun r v => r.set i v) rows (rows.map (fun r => cell r i)) = rows := by
  induction rows with
  | nil => rfl
  | cons r rs ih => simp [set_cell_self, ih]

theorem setCol_getCol (t : Table) (i : ℕ) : setCol t i (getCol t i) = t := by
  cases t with
  | mk cols rows =>
    simp only [setCol, getCol]
    congr 1
    exact zipWith_set_cell rows i

theorem cell_set_ne (r : List Value) (i j : ℕ) (h : j ≠ i) (v : Value) :
    cell (r.set i v) j = cell r j := by
  induction r generalizing i j with
  | nil => rfl
  | cons a l ih =>
    cases i with
    | zero =>
      cases j with
      | zero => exact absurd rfl h
      | succ m => rfl
    | succ n =>
      cases j with
      | zero => rfl
      | succ m => exact ih n m (fun hh => h (by rw [hh]))

theorem map_cell_zipWith_set (rows : List (List Value)) (vs : List Value) (i j : ℕ)
    (h : j ≠ i) (hlen : vs.length = rows.length) :
    (List.zipWith (fun r v => r.set i v) rows vs).map (fun r => cell r j) =
      rows.map (fun r => cell r j) := by
  induction rows generalizing vs with
  | nil => simp
  | cons r rs ih =>
    cases vs with
    | nil => simp at hlen
    | cons v vs =>
      simp only [List.zipWith_cons_cons, List.map_cons]
      rw [cell_set_ne r i j h v, ih vs (by simpa using hlen)]

theorem setCol_cols (t : Table) (i : ℕ) (vs : List Value) :
    (setCol t i vs).cols = t.cols := rfl

theorem getCol_length (t : Table) (i : ℕ) : (getCol t i).length = t.rows.length := by
  simp [getCol]

theorem setCol_rows_length (t : Table) (i : ℕ) (vs : List Value)
    (h : vs.length = t.rows.length) : (setCol t i vs).rows.length = t.rows.length := by
  simp [setCol, h]

theorem getCol_setCol_ne (t : Table) (i j : ℕ) (h : j ≠ i) (vs : List Value)
    (hlen : vs.length = t.rows.length) :
    getCol (setCol t i vs) j = getCol t j := by
  cases t with
  | mk cols rows =>
    simp only [setCol, getCol]
    exact map_cell_zipWith_set rows vs i j h hlen

theorem convColumn_length (dty : String) (vs ws : List Value)
    (h : convColumn dty vs = some ws) : ws.length = vs.length := by
  induction vs generalizing ws with
  | nil =>
    simp only [convColumn] at h
    cases h
    rfl
  | cons v vs ih =>
    simp only [convColumn] at h
    cases hv : convVal v dty <;> rw [hv] at h
    · exact absurd h (by simp)
    · cases hc : convColumn dty vs <;> rw [hc] at h
      · exact absurd h (by simp)
      · cases h
        simp [ih _ hc]

theorem convColumn_date_id (vs : List Value) (h : ∀ v ∈ vs, isDateOrNull v = true) :
    convColumn "datetime64" vs = some vs := by
  induction vs with
  | nil => rfl
  | cons v vs ih =>
    have hv := h v (by simp)
    have hrest := ih (fun w hw => h w (by simp [hw]))
    cases v <;> simp [isDateOrNull] at hv <;>
      simp [convColumn, convVal, hrest]

theorem findIdxA_some {α : Type} (p : α → Bool) (l : List α) (i : ℕ)
    (h : findIdxA p l = some i) : ∃ a, l.get? i = some a ∧ p a = true := by
  induction l generalizing i with
  | nil => simp [findIdxA] at h
  | cons a l ih =>
    simp only [findIdxA] at h
    by_cases hp : p a
    · rw [if_pos hp] at h
      cases h
      exact ⟨a, rfl, hp⟩
    · rw [if_neg hp] at h
      cases hfi : findIdxA p l <;> rw [hfi] at h
      · exact absurd h (by simp)
      · cases h
        exact ih _ hfi

theorem colIdx_get (t : Table) (c : String) (i : ℕ) (h : colIdx t c = some i) :
    t.cols.get? i = some c := by
  obtain ⟨a, hg, hp⟩ := findIdxA_some _ _ _ h
  rw [hg, beq_iff_eq.mp hp]

theorem dropDupFirst_sublist (key : List Value → List Value)
    (seen : List (List Value)) (l : List (List Value)) :
    (dropDupFirst key seen l).Sublist l := by
  induction l generalizing seen with
  | nil => simp [dropDupFirst]
  | cons r rs ih =>
    simp only [dropDupFirst]
    split
    · exact (ih seen).cons r
    · exact (ih _).cons₂ r

theorem dropDupLast_sublist (key : List Value → List Value) (l : List (List Value)) :
    (dropDupLast key l).Sublist l := by
  induction l with
  | nil => simp [dropDupLast]
  | cons r rs ih =>
    simp only [dropDupLast]
    split
    · exact ih.cons r
    · exact ih.cons₂ r

theorem dropDupFirst_eq_self (l : List (List Value)) (seen : List (List Value))
    (hx : ∀ r ∈ l, r ∉ seen) (hnd : l.Nodup) :
    dropDupFirst (fun r => r) seen l = l := by
  induction l generalizing seen with
  | nil => rfl
  | cons r rs ih =>
    simp only [dropDupFirst]
    rw [if_neg (hx r (by simp))]
    congr 1
    apply ih
    · intro x hxrs hmem
      rcases List.mem_cons.mp hmem with hxr | hseen
      · exact (List.nodup_cons.mp hnd).1 (hxr ▸ hxrs)
      · exact hx x (by simp [hxrs]) hseen
    · exact (List.nodup_cons.mp hnd).2

theorem rowKey_none (t : Table) : rowKey t none = fun r => r := rfl

theorem convertOneColumn_cols (t : Table) (p : String × String) :
    (convertOneColumn t p).cols = t.cols := by
  unfold convertOneColumn
  cases hci : colIdx t p.1 <;> simp only [hci]
  rename_i i
  cases hc : convColumn p.2 (getCol t i) <;> simp only [hc]
  rfl

theorem convertOneColumn_rows_length (t : Table) (p : String × String) :
    (convertOneColumn t p).rows.length = t.rows.length := by
  unfold convertOneColumn
  cases hci : colIdx t p.1 <;> simp only [hci]
  rename_i i
  cases hc : convColumn p.2 (getCol t i) <;> simp only [hc]
  rename_i vs
  exact setCol_rows_length t i vs
    ((convColumn_length _ _ _ hc).trans (getCol_length t i))

theorem convert_shape (m : List (String × String)) :
    ∀ t : Table, (convert_data_types t m).cols = t.cols ∧
      (convert_data_types t m).rows.length = t.rows.length := by
  induction m with
  | nil => exact fun t => ⟨rfl, rfl⟩
  | cons p m ih =>
    intro t
    have hstep : convert_data_types t (p :: m) =
        convert_data_types (convertOneColumn t p) m := rfl
    constructor
    · rw [hstep, (ih (convertOneColumn t p)).1, convertOneColumn_cols]
    · rw [hstep, (ih (convertOneColumn t p)).2, convertOneColumn_rows_length]

theorem convertOneColumn_getCol_ne (t : Table) (p : String × String) (j : ℕ)
    (c : String) (hj : t.cols.get? j = some c) (hne : p.1 ≠ c) :
    getCol (convertOneColumn t p) j = getCol t j := by
  unfold convertOneColumn
  cases hci : colIdx t p.1 <;> simp only [hci]
  rename_i i
  have hi : t.cols.get? i = some p.1 := colIdx_get t p.1 i hci
  have hij : j ≠ i := by
    rintro rfl
    rw [hj] at hi
    exact hne (Option.some.inj hi).symm
  cases hcc : convColumn p.2 (getCol t i) <;> simp only [hcc]
  rename_i vs
  exact getCol_setCol_ne t i j hij vs
    ((convColumn_length _ _ _ hcc).trans (getCol_length t i))

theorem convert_getCol_ne (m : List (String × String)) :
    ∀ (t : Table) (j : ℕ) (c : String), t.cols.get? j = some c →
      (∀ p ∈ m, p.1 ≠ c) →
      getCol (convert_data_types t m) j = getCol t j := by
  induction m with
  | nil => exact fun t j c _ _ => rfl
  | cons p m ih =>
    intro t j c hj hm
    have hstep : convert_data_types t (p :: m) =
        convert_data_types (convertOneColumn t p) m := rfl
    rw [hstep]
    have hone := convertOneColumn_getCol_ne t p j c hj (hm p (by simp))
    have hj2 : (convertOneColumn t p).cols.get? j = some c := by
      rw [convertOneColumn_cols]; exact hj
    rw [ih (convertOneColumn t p) j c hj2 (fun q hq => hm q (by simp [hq])), hone]

/-! Inversion helpers for the single cleaning operations. -/

theorem rco_ok (t : Table) (ic mk : String) (out : Table)
    (h : remove_cancelled_orders t ic mk = .ok out) :
    out.rows.Sublist t.rows ∧ out.cols = t.cols := by
  unfold remove_cancelled_orders at h
  cases hci : colIdx t ic <;> rw [hci] at h
  · exact absurd h (by simp)
  · cases h
    exact ⟨List.filter_sublist t.rows, rfl⟩

theorem rmv_ok (t : Table) (cs : List String) (how : String) (out : Table)
    (h : remove_missing_values t cs how = .ok out) :
    out.rows.Sublist t.rows ∧ out.cols = t.cols ∧ t.rows.length ≠ 0 := by
  unfold remove_missing_values at h
  cases hf : cs.find? (fun c => (colIdx t c).isNone) <;> rw [hf] at h
  · by_cases hz : t.rows.length = 0
    · rw [if_pos hz] at h
      exact absurd h (by simp)
    · rw [if_neg hz] at h
      cases h
      exact ⟨List.filter_sublist t.rows, rfl, hz⟩
  · exact absurd h (by simp)

theorem riq_ok (t : Table) (qc : String) (mq : ℚ) (out : Table)
    (h : remove_invalid_quantities t qc mq = .ok out) :
    out.rows.Sublist t.rows ∧ out.cols = t.cols := by
  unfold remove_invalid_quantities at h
  cases hci : colIdx t qc <;> rw [hci] at h
  · exact absurd h (by simp)
  · cases h
    exact ⟨List.filter_sublist t.rows, rfl⟩

theorem rip_ok (t : Table) (pc : String) (mn mx : ℚ) (out : Table)
    (h : remove_invalid_prices t pc mn mx = .ok out) :
    out.rows.Sublist t.rows ∧ out.cols = t.cols := by
  unfold remove_invalid_prices at h
  cases hci : colIdx t pc <;> rw [hci] at h
  · exact absurd h (by simp)
  · cases h
    exact ⟨List.filter_sublist t.rows, rfl⟩

theorem rd_ok (t : Table) (sub : Option (List String)) (keep : String) (out : Table)
    (h : remove_duplicates t sub keep = .ok out) :
    out.rows.Sublist t.rows ∧ out.cols = t.cols := by
  cases sub with
  | none =>
    simp only [remove_duplicates] at h
    split at h <;> cases h
    · exact ⟨dropDupLast_sublist _ _, rfl⟩
    · exact ⟨dropDupFirst_sublist _ _ _, rfl⟩
  | some cs =>
    simp only [remove_duplicates] at h
    cases hf : cs.find? (fun c => (colIdx t c).isNone) <;> rw [hf] at h
    · by_cases hk : (keep == "last") = true
      · rw [if_pos hk] at h
        cases h
        exact ⟨dropDupLast_sublist _ _, rfl⟩
      · rw [if_neg hk] at h
        cases h
        exact ⟨dropDupFirst_sublist _ _ _, rfl⟩
    · exact absurd h (by simp)

theorem ok_bind {α β : Type} (a : α) (f : α → Except String β) :
    (Except.ok a >>= f) = f a := rfl

theorem clean_ok_decomp (t u : Table) (h : clean_ecommerce_data t = .ok u) :
    ∃ s1 s3 s4 s5,
      remove_cancelled_orders t "InvoiceNo" "C" = .ok s1 ∧
      remove_missing_values (convert_data_types s1 [("InvoiceDate", "datetime64")])
        ["Description"] "any" = .ok s3 ∧
      remove_invalid_quantities s3 "Quantity" 1 = .ok s4 ∧
      remove_invalid_prices s4 "UnitPrice" (1/100) 100000 = .ok s5 ∧
      remove_duplicates s5 none "first" = .ok u ∧
      t.rows.length ≠ 0 := by
  unfold clean_ecommerce_data at h
  simp only [bind_ok_iff] at h
  obtain ⟨s1, h1, s3, h3, s4, h4, s5, h5, s6, h6, hfin⟩ := h
  by_cases hz : t.rows.length = 0
  · rw [if_pos hz] at hfin
    exact absurd hfin (by simp)
  · rw [if_neg hz] at hfin
    cases hfin
    exact ⟨s1, s3, s4, s5, h1, h3, h4, h5, h6, hz⟩

theorem rco_id (t : Table) (i : ℕ) (hci : colIdx t "InvoiceNo" = some i)
    (hall : t.rows.all (fun r => !(strStartsWith (pyStr (cell r i)) "C")) = true) :
    remove_cancelled_orders t "InvoiceNo" "C" = .ok t := by
  unfold remove_cancelled_orders
  simp only [hci]
  have hfix : t.rows.filter (fun r => !(strStartsWith (pyStr (cell r i)) "C")) = t.rows :=
    List.filter_eq_self.mpr (List.all_eq_true.mp hall)
  rw [hfix]

theorem convert_invdate_id (t : Table)
    (hdate : (match colIdx t "InvoiceDate" with
              | none => true
              | some i => (getCol t i).all isDateOrNull) = true) :
    convert_data_types t [("InvoiceDate", "datetime64")] = t := by
  show convertOneColumn t ("InvoiceDate", "datetime64") = t
  unfold convertOneColumn
  cases hci : colIdx t "InvoiceDate" <;> simp only [hci]
  rename_i i
  rw [hci] at hdate
  rw [convColumn_date_id (getCol t i) (fun v hv => List.all_eq_true.mp hdate v hv)]
  exact setCol_getCol t i

theorem rmv_id (t : Table) (i : ℕ) (hci : colIdx t "Description" = some i)
    (hall : t.rows.all (fun r => !(isMissing (cell r i))) = true)
    (hne : t.rows.length ≠ 0) :
    remove_missing_values t ["Description"] "any" = .ok t := by
  unfold remove_missing_values
  have hf : (["Description"] : List String).find? (fun c => (colIdx t c).isNone) = none := by
    simp [List.find?, hci]
  rw [hf, if_neg hne]
  have hfix : t.rows.filter (keepRowMissing t ["Description"] "any") = t.rows := by
    apply List.filter_eq_self.mpr
    intro r hr
    have hrr := List.all_eq_true.mp hall r hr
    simp [keepRowMissing, hci]
    simpa using hrr
  rw [hfix]

theorem riq_id (t : Table) (i : ℕ) (hci : colIdx t "Quantity" = some i)
    (hall : t.rows.all (fun r => geQ (cell r i) 1) = true) :
    remove_invalid_quantities t "Quantity" 1 = .ok t := by
  unfold remove_invalid_quantities
  simp only [hci]
  rw [List.filter_eq_self.mpr (List.all_eq_true.mp hall)]

theorem rip_id (t : Table) (i : ℕ) (hci : colIdx t "UnitPrice" = some i)
    (hall : t.rows.all
      (fun r => geQ (cell r i) (1/100) && leQ (cell r i) 100000) = true) :
    remove_invalid_prices t "UnitPrice" (1/100) 100000 = .ok t := by
  unfold remove_invalid_prices
  simp only [hci]
  rw [List.filter_eq_self.mpr (List.all_eq_true.mp hall)]

theorem rd_id (t : Table) (hnd : t.rows.Nodup) :
    remove_duplicates t none "first" = .ok t := by
  simp only [remove_duplicates]
  rw [if_neg (by decide)]
  rw [rowKey_none, dropDupFirst_eq_self t.rows [] (by simp) hnd]

/-! Lemmas for the percentile-rank RFM scoring. -/

theorem rankFirst_pos (vs : List ℚ) (i : ℕ) : 1 ≤ rankFirst vs i :=
  Nat.le_add_right 1 _

theorem rankFirst_le (vs : List ℚ) (i : ℕ) (hi : i < vs.length) :
    rankFirst vs i ≤ vs.length := by
  unfold rankFirst
  have hsub : ((Finset.range vs.length).filter
      (fun j => vs.getD j 0 < vs.getD i 0 ∨ (vs.getD j 0 = vs.getD i 0 ∧ j < i))) ⊆
      (Finset.range vs.length).erase i := by
    intro j hj
    rw [Finset.mem_filter] at hj
    rw [Finset.mem_erase]
    refine ⟨?_, hj.1⟩
    rcases hj.2 with hlt | ⟨_, hji⟩
    · rintro rfl
      exact lt_irrefl _ hlt
    · rintro rfl
      exact lt_irrefl _ hji
  have hcard := Finset.card_le_card hsub
  have herase : ((Finset.range vs.length).erase i).card = vs.length - 1 := by
    rw [Finset.card_erase_of_mem (Finset.mem_range.mpr hi), Finset.card_range]
  omega

theorem pctRank_pos (vs : List ℚ) (i : ℕ) (h : 0 < vs.length) : 0 < pctRank vs i := by
  unfold pctRank
  apply div_pos
  · exact_mod_cast rankFirst_pos vs i
  · exact_mod_cast h

theorem pctRank_le_one (vs : List ℚ) (i : ℕ) (hi : i < vs.length) : pctRank vs i ≤ 1 := by
  unfold pctRank
  rw [div_le_one (by exact_mod_cast Nat.pos_of_ne_zero (by omega))]
  exact_mod_cast rankFirst_le vs i hi

theorem cutBin5_some (p : ℚ) (h0 : 0 < p) (h1 : p ≤ 1) :
    ∃ k, cutBin5 p = some k ∧ k ≤ 4 := by
  unfold cutBin5
  rw [if_neg (by linarith : ¬p ≤ 0)]
  by_cases b : p ≤ 1/5
  · rw [if_pos b]
    exact ⟨0, rfl, by omega⟩
  rw [if_neg b]
  by_cases c : p ≤ 2/5
  · rw [if_pos c]
    exact ⟨1, rfl, by omega⟩
  rw [if_neg c]
  by_cases d : p ≤ 3/5
  · rw [if_pos d]
    exact ⟨2, rfl, by omega⟩
  rw [if_neg d]
  by_cases e : p ≤ 4/5
  · rw [if_pos e]
    exact ⟨3, rfl, by omega⟩
  rw [if_neg e, if_pos h1]
  exact ⟨4, rfl, by omega⟩

theorem cutBin5_mono (p p' : ℚ) (hpp : p ≤ p') (a b : ℕ)
    (ha : cutBin5 p = some a) (hb : cutBin5 p' = some b) : a ≤ b := by
  unfold cutBin5 at ha hb
  split_ifs at ha hb <;>
    first
      | exact Option.noConfusion ha
      | exact Option.noConfusion hb
      | (cases ha; cases hb; first | omega | (exfalso; linarith))

theorem rankFirst_lt_of_lt (vs : List ℚ) (i j : ℕ) (hi : i < vs.length)
    (hj : j < vs.length) (hv : vs.getD i 0 < vs.getD j 0) :
    rankFirst vs i < rankFirst vs j := by
  unfold rankFirst
  have hsub : ((Finset.range vs.length).filter
      (fun k => vs.getD k 0 < vs.getD i 0 ∨ (vs.getD k 0 = vs.getD i 0 ∧ k < i))) ⊆
      ((Finset.range vs.length).filter
      (fun k => vs.getD k 0 < vs.getD j 0 ∨ (vs.getD k 0 = vs.getD j 0 ∧ k < j))) := by
    intro k hk
    rw [Finset.mem_filter] at hk ⊢
    refine ⟨hk.1, ?_⟩
    rcases hk.2 with hlt | ⟨heq, _⟩
    · exact Or.inl (lt_trans hlt hv)
    · exact Or.inl (heq ▸ hv)
  have hmem : i ∈ ((Finset.range vs.length).filter
      (fun k => vs.getD k 0 < vs.getD j 0 ∨ (vs.getD k 0 = vs.getD j 0 ∧ k < j))) :=
    Finset.mem_filter.mpr ⟨Finset.mem_range.mpr hi, Or.inl hv⟩
  have hnmem : i ∉ ((Finset.range vs.length).filter
      (fun k => vs.getD k 0 < vs.getD i 0 ∨ (vs.getD k 0 = vs.getD i 0 ∧ k < i))) := by
    rw [Finset.mem_filter]
    rintro ⟨_, hlt | ⟨_, hii⟩⟩
    · exact lt_irrefl _ hlt
    · exact lt_irrefl _ hii
  have hss := Finset.card_lt_card ((Finset.ssubset_iff_of_subset hsub).mpr
    ⟨i, hmem, hnmem⟩)
  omega

theorem rankFirst_lt_of_eq (vs : List ℚ) (i j : ℕ) (hi : i < vs.length)
    (hj : j < vs.length) (hv : vs.getD i 0 = vs.getD j 0) (hij : i < j) :
    rankFirst vs i < rankFirst vs j := by
  unfold rankFirst
  have hsub : ((Finset.range vs.length).filter
      (fun k => vs.getD k 0 < vs.getD i 0 ∨ (vs.getD k 0 = vs.getD i 0 ∧ k < i))) ⊆
      ((Finset.range vs.length).filter
      (fun k => vs.getD k 0 < vs.getD j 0 ∨ (vs.getD k 0 = vs.getD j 0 ∧ k < j))) := by
    intro k hk
    rw [Finset.mem_filter] at hk ⊢
    refine ⟨hk.1, ?_⟩
    rcases hk.2 with hlt | ⟨heq, hki⟩
    · exact Or.inl (hv ▸ hlt)
    · exact Or.inr ⟨heq.trans hv, lt_trans hki hij⟩
  have hmem : i ∈ ((Finset.range vs.length).filter
      (fun k => vs.getD k 0 < vs.getD j 0 ∨ (vs.getD k 0 = vs.getD j 0 ∧ k < j))) :=
    Finset.mem_filter.mpr ⟨Finset.mem_range.mpr hi, Or.inr ⟨hv, hij⟩⟩
  have hnmem : i ∉ ((Finset.range vs.length).filter
      (fun k => vs.getD k 0 < vs.getD i 0 ∨ (vs.getD k 0 = vs.getD i 0 ∧ k < i))) := by
    rw [Finset.mem_filter]
    rintro ⟨_, hlt | ⟨_, hii⟩⟩
    · exact lt_irrefl _ hlt
    · exact lt_irrefl _ hii
  have hss := Finset.card_lt_card ((Finset.ssubset_iff_of_subset hsub).mpr
    ⟨i, hmem, hnmem⟩)
  omega

theorem pctRank_lt (vs : List ℚ) (i j : ℕ) (h : rankFirst vs i < rankFirst vs j)
    (hlen : 0 < vs.length) : pctRank vs i < pctRank vs j := by
  unfold pctRank
  rw [div_lt_div_iff_of_pos_right (by exact_mod_cast hlen)]
  exact_mod_cast h

theorem rScoreAt_spec (vs : List ℚ) (i : ℕ) (hi : i < vs.length) :
    ∃ s, rScoreAt vs i = some s ∧ 1 ≤ s ∧ s ≤ 5 := by
  obtain ⟨k, hk, hk4⟩ := cutBin5_some (pctRank vs i)
    (pctRank_pos vs i (by omega)) (pctRank_le_one vs i hi)
  exact ⟨5 - k, by simp [rScoreAt, hk], by omega, by omega⟩

theorem fmScoreAt_spec (vs : List ℚ) (i : ℕ) (hi : i < vs.length) :
    ∃ s, fmScoreAt vs i = some s ∧ 1 ≤ s ∧ s ≤ 5 := by
  obtain ⟨k, hk, hk4⟩ := cutBin5_some (pctRank vs i)
    (pctRank_pos vs i (by omega)) (pctRank_le_one vs i hi)
  exact ⟨k + 1, by simp [fmScoreAt, hk], by omega, by omega⟩

theorem rScoreAt_mono (vs : List ℚ) (i j : ℕ) (hi : i < vs.length)
    (hj : j < vs.length) (hv : vs.getD i 0 < vs.getD j 0) (si sj : ℕ)
    (hsi : rScoreAt vs i = some si) (hsj : rScoreAt vs j = some sj) : sj ≤ si := by
  unfold rScoreAt at hsi hsj
  obtain ⟨ki, hki, hki5⟩ := Option.map_eq_some'.mp hsi
  obtain ⟨kj, hkj, hkj5⟩ := Option.map_eq_some'.mp hsj
  have hk := cutBin5_mono (pctRank vs i) (pctRank vs j)
    (le_of_lt (pctRank_lt vs i j (rankFirst_lt_of_lt vs i j hi hj hv) (by omega)))
    ki kj hki hkj
  omega

theorem rScoreAt_mono_eq (vs : List ℚ) (i j : ℕ) (hi : i < vs.length)
    (hj : j < vs.length) (hv : vs.getD i 0 = vs.getD j 0) (hij : i < j) (si sj : ℕ)
    (hsi : rScoreAt vs i = some si) (hsj : rScoreAt vs j = some sj) : sj ≤ si := by
  unfold rScoreAt at hsi hsj
  obtain ⟨ki, hki, hki5⟩ := Option.map_eq_some'.mp hsi
  obtain ⟨kj, hkj, hkj5⟩ := Option.map_eq_some'.mp hsj
  have hk := cutBin5_mono (pctRank vs i) (pctRank vs j)
    (le_of_lt (pctRank_lt vs i j (rankFirst_lt_of_eq vs i j hi hj hv hij) (by omega)))
    ki kj hki hkj
  omega

theorem buildScores_spec (recencies orders clvs : List ℚ) (cms : List CustomerMetric)
    (is : List ℕ)
    (h : ∀ i ∈ is, (rScoreAt recencies i).isSome ∧ (fmScoreAt orders i).isSome ∧
         (fmScoreAt clvs i).isSome) :
    ∃ out, buildScores recencies orders clvs cms is = .ok out ∧
      out.length = is.length ∧
      ∀ k, k < is.length →
        (out.getD k default).rScore = (rScoreAt recencies (is.getD k 0)).getD 0 ∧
        (out.getD k default).fScore = (fmScoreAt orders (is.getD k 0)).getD 0 ∧
        (out.getD k default).mScore = (fmScoreAt clvs (is.getD k 0)).getD 0 := by
  induction is with
  | nil => exact ⟨[], rfl, rfl, fun k hk => absurd hk (by simp)⟩
  | cons i is ih =>
    obtain ⟨hri, hfi, hmi⟩ := h i (by simp)
    obtain ⟨r, hr⟩ := Option.isSome_iff_exists.mp hri
    obtain ⟨f, hf⟩ := Option.isSome_iff_exists.mp hfi
    obtain ⟨m, hm⟩ := Option.isSome_iff_exists.mp hmi
    obtain ⟨rest, hrest, hlen, hpt⟩ := ih (fun j hj => h j (by simp [hj]))
    refine ⟨{ base := cms.getD i default, rScore := r, fScore := f, mScore := m,
              rfmScore := scoreStr r ++ scoreStr f ++ scoreStr m } :: rest, ?_,
            by simp [hlen], ?_⟩
    · unfold buildScores
      rw [hr, hf, hm, hrest]
    · intro k hk
      cases k with
      | zero => simp [hr, hf, hm]
      | succ k2 =>
        have hres := hpt k2 (by simpa using hk)
        simpa using hres

theorem getD_range_self (n i : ℕ) (hi : i < n) : (List.range n).getD i 0 = i := by
  rw [List.getD_eq_getElem?_getD, List.getElem?_range hi]
  rfl

theorem getD_map_rec {α : Type} [Inhabited α] (f : α → ℚ) (l : List α) (i : ℕ)
    (hi : i < l.length) : (l.map f).getD i 0 = f (l.getD i default) := by
  induction l generalizing i with
  | nil => simp at hi
  | cons a l ih =>
    cases i with
    | zero => rfl
    | succ n =>
      show (l.map f).getD n 0 = f (l.getD n default)
      exact ih n (by simpa using hi)

/-! The claims. -/

/-- C1 (code_bug): on an empty (zero-row) table, `remove_missing_values`
raises ZeroDivisionError while computing the logged removal percentage
(`removed / original_rows` with `original_rows = 0`, both Python
integers), so `clean_ecommerce_data` raises as well instead of returning
an empty table; a run in which cleaning yields zero rows (here: every
row cancelled) likewise crashes at that step instead of propagating an
empty result. -/
theorem claim1_empty_input_zero_division :
    remove_missing_values emptyT ["Description"] "any" = .error "ZeroDivisionError" ∧
    clean_ecommerce_data emptyT = .error "ZeroDivisionError" ∧
    clean_ecommerce_data allCancelledT = .error "ZeroDivisionError" := by decide

/-- C2 (counterexample): `filter_by_date_range` executes
`df[date_column] = pd.to_datetime(df[date_column])` on the caller table,
so after a call on a table whose date column holds strings, the caller
table has changed: the claim that it leaves the caller date column
exactly as it was is false. -/
theorem claim2_counterexample_mutation :
    filter_by_date_range T2 "InvoiceDate" "2020-01-01" "2020-12-31" =
      .ok (T2mut, T2mut) ∧ T2mut ≠ T2 := by decide

/-- C2 (amended): every Cleaner operation except `filter_by_date_range`
returns a fresh table and leaves its argument alone, while
`filter_by_date_range` writes the datetime-coerced date column back into
the caller table; the caller table is unchanged precisely when that
column is already datetime-typed (or NaT), in which case the call is
pure and the result rows are a subsequence of the input rows. -/
theorem claim2_date_filter_pure_when_typed :
    ∀ (t : Table) (dc sd ed : String) (i : ℕ) (ds de : Int),
      colIdx t dc = some i →
      (getCol t i).all isDateOrNull = true →
      parseDate sd = some ds → parseDate ed = some de →
      ∃ res, filter_by_date_range t dc sd ed = .ok (t, res) ∧
        res.rows.Sublist t.rows ∧ res.cols = t.cols := by
  intro t dc sd ed i ds de hci hall hsd hed
  unfold filter_by_date_range
  simp only [hci]
  rw [convColumn_date_id (getCol t i) (List.all_eq_true.mp hall)]
  simp only [setCol_getCol, hsd, hed]
  exact ⟨_, rfl, List.filter_sublist t.rows, rfl⟩

/-- C2 witness: the amended theorem applied to a concrete date-typed
table. -/
theorem claim2_witness :
    ∃ res, filter_by_date_range W2 "InvoiceDate" "2020-01-01" "2020-12-31" =
      .ok (W2, res) ∧ res.rows.Sublist W2.rows ∧ res.cols = W2.cols :=
  claim2_date_filter_pure_when_typed W2 "InvoiceDate" "2020-01-01" "2020-12-31"
    0 20200101 20201231 (by decide) (by decide) (by decide) (by decide)

/-- C3 (counterexample): `convert_data_types` catches the conversion
error of a column containing an unconvertible value and leaves the
column exactly as it was — the unconvertible value is neither turned
into null nor does the call raise, and no raise-vs-null configuration
exists, refuting the claimed configurable behaviour. -/
theorem claim3_counterexample_unconverted :
    convert_data_types T3 [("A", "datetime64")] = T3 ∧
    cell ((convert_data_types T3 [("A", "datetime64")]).rows.getD 0 []) 0 =
      .vStr "xyz" ∧
    cell ((convert_data_types T3 [("A", "datetime64")]).rows.getD 0 []) 0 ≠
      .vNull := by decide

/-- C3 (amended): `convert_data_types` never raises (it is a total
function), keeps the column list and the row count intact, leaves every
column whose name is not in the mapping untouched, and on a failing
single-column conversion returns the table unchanged (the caught
exception is only logged). -/
theorem claim3_convert_isolation :
    (∀ (t : Table) (m : List (String × String)),
      (convert_data_types t m).cols = t.cols ∧
      (convert_data_types t m).rows.length = t.rows.length) ∧
    (∀ (t : Table) (m : List (String × String)) (j : ℕ) (c : String),
      t.cols.get? j = some c → (∀ p ∈ m, p.1 ≠ c) →
      getCol (convert_data_types t m) j = getCol t j) ∧
    (∀ (t : Table) (c dty : String) (i : ℕ),
      colIdx t c = some i → convColumn dty (getCol t i) = none →
      convert_data_types t [(c, dty)] = t) := by
  refine ⟨fun t m => convert_shape m t, fun t m j c hj hm => convert_getCol_ne m t j c hj hm, ?_⟩
  intro t c dty i hci hcc
  show convertOneColumn t (c, dty) = t
  unfold convertOneColumn
  simp only [hci, hcc]

/-- C3 witness: the amended theorem applied to a concrete two-column
table with a failing datetime conversion in column A and an unmapped
column B. -/
theorem claim3_witness :
    ((convert_data_types W3 [("A", "datetime64")]).cols = W3.cols ∧
     (convert_data_types W3 [("A", "datetime64")]).rows.length = W3.rows.length) ∧
    getCol (convert_data_types W3 [("A", "datetime64")]) 1 = getCol W3 1 ∧
    convert_data_types W3 [("A", "datetime64")] = W3 :=
  ⟨claim3_convert_isolation.1 W3 [("A", "datetime64")],
   claim3_convert_isolation.2.1 W3 [("A", "datetime64")] 1 "B" (by decide) (by decide),
   claim3_convert_isolation.2.2 W3 "A" "datetime64" 0 (by decide) (by decide)⟩

/-- C4 (confirmed): whenever the pipeline returns a table, that table is
produced by cancellation removal, then type coercion of InvoiceDate,
then missing-Description removal, then the quantity filter, then the
price filter, then duplicate removal, in that fixed order — each stage
consuming exactly the output of the previous stage — and the logged
retention-rate summary is rows kept over rows in, times 100. -/
theorem claim4_pipeline_order :
    ∀ t u : Table, clean_ecommerce_data t = .ok u →
      ∃ s1 s3 s4 s5,
        remove_cancelled_orders t "InvoiceNo" "C" = .ok s1 ∧
        remove_missing_values (convert_data_types s1 [("InvoiceDate", "datetime64")])
          ["Description"] "any" = .ok s3 ∧
        remove_invalid_quantities s3 "Quantity" 1 = .ok s4 ∧
        remove_invalid_prices s4 "UnitPrice" (1/100) 100000 = .ok s5 ∧
        remove_duplicates s5 none "first" = .ok u ∧
        cleaning_retention_rate t =
          .ok ((u.rows.length : ℚ) / (t.rows.length : ℚ) * 100) := by
  intro t u h
  obtain ⟨s1, s3, s4, s5, h1, h3, h4, h5, h6, hz⟩ := clean_ok_decomp t u h
  refine ⟨s1, s3, s4, s5, h1, h3, h4, h5, h6, ?_⟩
  unfold cleaning_retention_rate
  rw [h, ok_bind, if_neg hz]

/-- C4 witness: the pipeline-order theorem applied to a concrete one-row
table that the pipeline cleans successfully. -/
theorem claim4_witness :
    clean_ecommerce_data W4 = .ok W4out ∧
    ∃ s1 s3 s4 s5,
      remove_cancelled_orders W4 "InvoiceNo" "C" = .ok s1 ∧
      remove_missing_values (convert_data_types s1 [("InvoiceDate", "datetime64")])
        ["Description"] "any" = .ok s3 ∧
      remove_invalid_quantities s3 "Quantity" 1 = .ok s4 ∧
      remove_invalid_prices s4 "UnitPrice" (1/100) 100000 = .ok s5 ∧
      remove_duplicates s5 none "first" = .ok W4out ∧
      cleaning_retention_rate W4 =
        .ok ((W4out.rows.length : ℚ) / (W4.rows.length : ℚ) * 100) :=
  ⟨by decide, claim4_pipeline_order W4 W4out (by decide)⟩

/-- C5 (counterexample): `T5out` is the output of a first cleaning pass
(on `T5`) and satisfies the §3 post-clean invariants word for word, yet
cleaning it again returns a different table: the first pass left
InvoiceDate as text because the column conversion failed on a row that
was dropped later, so the second pass converts the surviving dates and
`clean(clean(T5)) ≠ clean(T5)`. -/
theorem claim5_counterexample_not_idempotent :
    spec_post_clean_invariant T5out = true ∧
    clean_ecommerce_data T5 = .ok T5out ∧
    clean_ecommerce_data T5out = .ok T5out2 ∧
    T5out2 ≠ T5out := by decide

/-- C5 (amended): once the post-clean invariants hold together with the
two extra conditions the code needs — the InvoiceDate column (when
present) already datetime-typed and the table non-empty — the pipeline
returns its input unchanged, and hence is idempotent:
`clean (clean t) = clean t`. -/
theorem claim5_idempotent_under_invariants :
    ∀ t : Table, post_clean_invariant t = true →
      clean_ecommerce_data t = .ok t ∧
      (clean_ecommerce_data t >>= clean_ecommerce_data) = clean_ecommerce_data t := by
  intro t h
  simp only [post_clean_invariant, Bool.and_eq_true] at h
  obtain ⟨⟨⟨⟨⟨⟨⟨⟨⟨⟨hno, hdc⟩, hqc⟩, hpc⟩, hcan⟩, hdt⟩, hdesc⟩, hq⟩, hp⟩, hnd⟩, hemp⟩ := h
  obtain ⟨i1, hci1⟩ := Option.isSome_iff_exists.mp hno
  obtain ⟨i2, hci2⟩ := Option.isSome_iff_exists.mp hdc
  obtain ⟨i3, hci3⟩ := Option.isSome_iff_exists.mp hqc
  obtain ⟨i4, hci4⟩ := Option.isSome_iff_exists.mp hpc
  have hlen : t.rows.length ≠ 0 := by
    simp only [Bool.not_eq_true'] at hemp
    intro hz
    rw [List.length_eq_zero.mp hz] at hemp
    simp at hemp
  simp only [hci1, Option.getD_some] at hcan
  simp only [hci2, Option.getD_some] at hdesc
  simp only [hci3, Option.getD_some] at hq
  simp only [hci4, Option.getD_some] at hp
  have e1 := rco_id t i1 hci1 hcan
  have e2 := convert_invdate_id t hdt
  have e3 := rmv_id t i2 hci2 hdesc hlen
  have e4 := riq_id t i3 hci3 hq
  have e5 := rip_id t i4 hci4 hp
  have e6 := rd_id t (of_decide_eq_true hnd)
  have hmain : clean_ecommerce_data t = .ok t := by
    unfold clean_ecommerce_data
    simp only [e1, ok_bind, e2, e3, e4, e5, e6, if_neg hlen]
  refine ⟨hmain, ?_⟩
  rw [hmain, ok_bind, hmain]

/-- C5 witness: the amended idempotence theorem applied to a concrete
cleaned table (the pipeline output for `W4`). -/
theorem claim5_witness :
    post_clean_invariant W4out = true ∧
    clean_ecommerce_data W4out = .ok W4out ∧
    (clean_ecommerce_data W4out >>= clean_ecommerce_data) =
      clean_ecommerce_data W4out :=
  ⟨by decide, (claim5_idempotent_under_invariants W4out (by decide)).1,
   (claim5_idempotent_under_invariants W4out (by decide)).2⟩

/-- C6 (counterexample): the pipeline does raise for some inputs — a
table without an InvoiceNo column makes the very first stage fail with a
KeyError, refuting the "no exception raised for any input" half of the
claim. -/
theorem claim6_counterexample_key_error :
    clean_ecommerce_data T6 = .error "KeyError: InvoiceNo" := by decide

/-- C6 (amended): whenever the pipeline completes without raising, it
never adds rows: the output row count is at most the input row count
(the pipeline can still raise, e.g. a KeyError on a missing column or a
ZeroDivisionError on an empty intermediate table). -/
theorem claim6_no_rows_added :
    ∀ t u : Table, clean_ecommerce_data t = .ok u →
      u.rows.length ≤ t.rows.length := by
  intro t u h
  obtain ⟨s1, s3, s4, s5, h1, h3, h4, h5, h6, _⟩ := clean_ok_decomp t u h
  have l1 := ((rco_ok _ _ _ _ h1).1).length_le
  have l2 := (convert_shape [("InvoiceDate", "datetime64")] s1).2
  have l3 := ((rmv_ok _ _ _ _ h3).1).length_le
  have l4 := ((riq_ok _ _ _ _ h4).1).length_le
  have l5 := ((rip_ok _ _ _ _ _ h5).1).length_le
  have l6 := ((rd_ok _ _ _ _ h6).1).length_le
  calc u.rows.length ≤ s5.rows.length := l6
    _ ≤ s4.rows.length := l5
    _ ≤ s3.rows.length := l4
    _ ≤ (convert_data_types s1 [("InvoiceDate", "datetime64")]).rows.length := l3
    _ = s1.rows.length := l2
    _ ≤ t.rows.length := l1

/-- C6 witness: the no-new-rows theorem applied to a concrete cleaning
run. -/
theorem claim6_witness : W4out.rows.length ≤ W4.rows.length :=
  claim6_no_rows_added W4 W4out (by decide)

/-- Pointwise characterisation of `create_rfm_scores`: it always
succeeds, preserves the row count, and the k-th output scores are the
binned percentile ranks of the k-th recency, order-count and
lifetime-value entries. -/
theorem create_rfm_pointwise (cms : List CustomerMetric) :
    ∃ out, create_rfm_scores cms = .ok out ∧ out.length = cms.length ∧
      ∀ k, k < cms.length →
        (out.getD k default).rScore =
          (rScoreAt (cms.map (fun c => c.recency_Days)) k).getD 0 ∧
        (out.getD k default).fScore =
          (fmScoreAt (cms.map (fun c => c.totalOrders)) k).getD 0 ∧
        (out.getD k default).mScore =
          (fmScoreAt (cms.map (fun c => c.customerLifetimeValue)) k).getD 0 := by
  have hsome : ∀ i ∈ List.range cms.length,
      (rScoreAt (cms.map (fun c => c.recency_Days)) i).isSome ∧
      (fmScoreAt (cms.map (fun c => c.totalOrders)) i).isSome ∧
      (fmScoreAt (cms.map (fun c => c.customerLifetimeValue)) i).isSome := by
    intro i hi
    rw [List.mem_range] at hi
    obtain ⟨s1, hs1, _, _⟩ := rScoreAt_spec (cms.map (fun c => c.recency_Days)) i
      (by simpa using hi)
    obtain ⟨s2, hs2, _, _⟩ := fmScoreAt_spec (cms.map (fun c => c.totalOrders)) i
      (by simpa using hi)
    obtain ⟨s3, hs3, _, _⟩ := fmScoreAt_spec (cms.map (fun c => c.customerLifetimeValue)) i
      (by simpa using hi)
    exact ⟨by simp [hs1], by simp [hs2], by simp [hs3]⟩
  have happ := buildScores_spec
    (cms.map (fun c => c.recency_Days)) (cms.map (fun c => c.totalOrders))
    (cms.map (fun c => c.customerLifetimeValue)) cms (List.range cms.length)
  obtain ⟨out, hout, hlen, hpt⟩ := happ hsome
  refine ⟨out, hout, by simpa using hlen, ?_⟩
  intro k hk
  have h := hpt k (by simpa using hk)
  rwa [getD_range_self cms.length k hk] at h

/-- C7 (confirmed): `create_rfm_scores` always succeeds, produces one
scored row per customer, every R/F/M score lies in [1, 5], and R_Score
is monotonically non-increasing in the recency value: a customer with a
strictly lower Recency_Days gets an R_Score at least as high, and among
equal recencies the earlier row (first-seen order, the rank tie-break)
gets an R_Score at least as high. -/
theorem claim7_rfm_scores :
    (∀ cms : List CustomerMetric, ∃ out, create_rfm_scores cms = .ok out ∧
      out.length = cms.length ∧
      ∀ k, k < cms.length →
        (1 ≤ (out.getD k default).rScore ∧ (out.getD k default).rScore ≤ 5) ∧
        (1 ≤ (out.getD k default).fScore ∧ (out.getD k default).fScore ≤ 5) ∧
        (1 ≤ (out.getD k default).mScore ∧ (out.getD k default).mScore ≤ 5)) ∧
    (∀ (cms : List CustomerMetric) (out : List ScoredCustomer) (i j : ℕ),
      create_rfm_scores cms = .ok out → i < cms.length → j < cms.length →
      ((cms.getD i default).recency_Days < (cms.getD j default).recency_Days →
        (out.getD j default).rScore ≤ (out.getD i default).rScore) ∧
      ((cms.getD i default).recency_Days = (cms.getD j default).recency_Days → i < j →
        (out.getD j default).rScore ≤ (out.getD i default).rScore)) := by
  constructor
  · intro cms
    obtain ⟨out, hout, hlen, hpt⟩ := create_rfm_pointwise cms
    refine ⟨out, hout, hlen, ?_⟩
    intro k hk
    obtain ⟨hr, hf, hm⟩ := hpt k hk
    obtain ⟨s1, hs1, h11, h15⟩ := rScoreAt_spec (cms.map (fun c => c.recency_Days)) k
      (by simpa using hk)
    obtain ⟨s2, hs2, h21, h25⟩ := fmScoreAt_spec (cms.map (fun c => c.totalOrders)) k
      (by simpa using hk)
    obtain ⟨s3, hs3, h31, h35⟩ := fmScoreAt_spec
      (cms.map (fun c => c.customerLifetimeValue)) k (by simpa using hk)
    rw [hs1] at hr
    rw [hs2] at hf
    rw [hs3] at hm
    simp only [Option.getD_some] at hr hf hm
    rw [hr, hf, hm]
    exact ⟨⟨h11, h15⟩, ⟨h21, h25⟩, ⟨h31, h35⟩⟩
  · intro cms out i j hout hi hj
    obtain ⟨out2, hout2, hlen2, hpt2⟩ := create_rfm_pointwise cms
    rw [hout] at hout2
    cases Except.ok.inj hout2
    have hi' : i < (cms.map (fun c => c.recency_Days)).length := by simpa using hi
    have hj' : j < (cms.map (fun c => c.recency_Days)).length := by simpa using hj
    obtain ⟨si, hsi, _, _⟩ := rScoreAt_spec (cms.map (fun c => c.recency_Days)) i hi'
    obtain ⟨sj, hsj, _, _⟩ := rScoreAt_spec (cms.map (fun c => c.recency_Days)) j hj'
    have hri := (hpt2 i hi).1
    have hrj := (hpt2 j hj).1
    rw [hsi, Option.getD_some] at hri
    rw [hsj, Option.getD_some] at hrj
    have hvi := getD_map_rec (fun c => c.recency_Days) cms i hi
    have hvj := getD_map_rec (fun c => c.recency_Days) cms j hj
    constructor
    · intro hlt
      have hv' : (cms.map (fun c => c.recency_Days)).getD i 0 <
          (cms.map (fun c => c.recency_Days)).getD j 0 := by
        rw [hvi, hvj]
        exact hlt
      have hmono : sj ≤ si := rScoreAt_mono _ i j hi' hj' hv' si sj hsi hsj
      rw [hri, hrj]
      exact hmono
    · intro heq hij
      have hv' : (cms.map (fun c => c.recency_Days)).getD i 0 =
          (cms.map (fun c => c.recency_Days)).getD j 0 := by
        rw [hvi, hvj]
        exact heq
      have hmono : sj ≤ si := rScoreAt_mono_eq _ i j hi' hj' hv' hij si sj hsi hsj
      rw [hri, hrj]
      exact hmono

/-- C7 witness: the scoring theorem applied to the concrete
three-customer table `CMS7`, whose scored output is `OUT7`. -/
theorem claim7_witness :
    create_rfm_scores CMS7 = .ok OUT7 ∧
    (1 ≤ (OUT7.getD 0 default).rScore ∧ (OUT7.getD 0 default).rScore ≤ 5) ∧
    (OUT7.getD 2 default).rScore ≤ (OUT7.getD 1 default).rScore := by
  have hok : create_rfm_scores CMS7 = .ok OUT7 := by decide
  refine ⟨hok, ?_, ?_⟩
  · obtain ⟨out, h1, _, h3⟩ := claim7_rfm_scores.1 CMS7
    rw [hok] at h1
    cases Except.ok.inj h1
    exact (h3 0 (by decide)).1
  · exact (claim7_rfm_scores.2 CMS7 OUT7 1 2 hok (by decide) (by decide)).1 (by decide)

/-! Lemmas for the country revenue shares. -/

theorem mem_dedupF {α : Type} [DecidableEq α] (l : List α) (x : α) :
    x ∈ dedupF l ↔ x ∈ l := by
  induction l with
  | nil => simp [dedupF]
  | cons a l ih =>
    simp only [dedupF, List.mem_cons, List.mem_filter, ih, decide_eq_true_eq]
    by_cases hx : x = a
    · simp [hx]
    · simp [hx]

theorem nodup_dedupF {α : Type} [DecidableEq α] (l : List α) : (dedupF l).Nodup := by
  induction l with
  | nil => simp [dedupF]
  | cons a l ih =>
    simp only [dedupF]
    refine List.nodup_cons.mpr ⟨?_, ih.filter _⟩
    intro hmem
    have hne := (List.mem_filter.mp hmem).2
    simp at hne

theorem sum_split_filter {β : Type} (K : List β) (F : β → ℚ) (p : β → Bool) :
    ((K.filter p).map F).sum + ((K.filter (fun b => !(p b))).map F).sum
      = (K.map F).sum := by
  induction K with
  | nil => simp
  | cons b K ih =>
    by_cases hb : p b = true
    · simp only [List.filter_cons, hb, if_pos, Bool.not_true, if_neg, List.map_cons,
        List.sum_cons, Bool.false_eq_true, not_false_eq_true]
      rw [← ih]
      ring
    · simp only [List.filter_cons, hb, Bool.not_eq_true] at hb ⊢
      simp only [hb, Bool.not_false, if_pos, Bool.false_eq_true, if_neg, List.map_cons,
        List.sum_cons, not_false_eq_true]
      rw [← ih]
      ring

theorem filter_eq_single_of_nodup {β : Type} [DecidableEq β] (K : List β) (a : β)
    (hnd : K.Nodup) (ha : a ∈ K) :
    K.filter (fun b => decide (b = a)) = [a] := by
  induction K with
  | nil => simp at ha
  | cons b K ih =>
    rcases List.mem_cons.mp ha with rfl | hmem
    · have hna : a ∉ K := (List.nodup_cons.mp hnd).1
      have hnil : K.filter (fun x => decide (x = a)) = [] :=
        List.filter_eq_nil_iff.mpr (fun x hx => by
          simp only [decide_eq_true_eq]
          rintro rfl
          exact hna hx)
      simp [List.filter_cons, hnil]
    · have hba : b ≠ a := by
        rintro rfl
        exact (List.nodup_cons.mp hnd).1 hmem
      simp only [List.filter_cons, decide_eq_true_eq]
      rw [if_neg (by simpa using hba)]
      exact ih (List.nodup_cons.mp hnd).2 hmem

theorem sum_fiber {α β : Type} [DecidableEq β] (g : α → β) (f : α → ℚ) :
    ∀ l : List α,
      ((dedupF (l.map g)).map
        (fun k => ((l.filter (fun x => decide (g x = k))).map f).sum)).sum
        = (l.map f).sum := by
  intro l
  induction l with
  | nil => simp [dedupF]
  | cons a l ih =>
    have hhead : (a :: l).filter (fun x => decide (g x = g a))
        = a :: l.filter (fun x => decide (g x = g a)) := by
      simp [List.filter_cons]
    have htail : ∀ k ∈ (dedupF (l.map g)).filter (fun b => decide (b ≠ g a)),
        (((a :: l).filter (fun x => decide (g x = k))).map f).sum
          = ((l.filter (fun x => decide (g x = k))).map f).sum := by
      intro k hk
      have hkne : k ≠ g a := by
        have := (List.mem_filter.mp hk).2
        simpa using this
      have : (a :: l).filter (fun x => decide (g x = k))
          = l.filter (fun x => decide (g x = k)) := by
        simp only [List.filter_cons]
        rw [if_neg (by simpa using fun h => hkne h.symm)]
      rw [this]
    have hsplit := sum_split_filter (dedupF (l.map g))
      (fun k => ((l.filter (fun x => decide (g x = k))).map f).sum)
      (fun b => decide (b = g a))
    have hnotp : ((dedupF (l.map g)).filter (fun b => !(decide (b = g a))))
        = (dedupF (l.map g)).filter (fun b => decide (b ≠ g a)) := by
      simp only [decide_not]
    have hone : (((dedupF (l.map g)).filter (fun b => decide (b = g a))).map
        (fun k => ((l.filter (fun x => decide (g x = k))).map f).sum)).sum
        = ((l.filter (fun x => decide (g x = g a))).map f).sum := by
      by_cases hmem : g a ∈ dedupF (l.map g)
      · rw [filter_eq_single_of_nodup _ _ (nodup_dedupF _) hmem]
        simp
      · have hnotin : g a ∉ l.map g := fun h => hmem ((mem_dedupF _ _).mpr h)
        have h1 : (dedupF (l.map g)).filter (fun b => decide (b = g a)) = [] :=
          List.filter_eq_nil_iff.mpr (fun x hx => by
            simp only [decide_eq_true_eq]
            rintro rfl
            exact hmem hx)
        have h2 : l.filter (fun x => decide (g x = g a)) = [] :=
          List.filter_eq_nil_iff.mpr (fun x hx => by
            simp only [decide_eq_true_eq]
            intro hgx
            exact hnotin (hgx ▸ List.mem_map_of_mem g hx))
        rw [h1, h2]
        simp
    calc ((dedupF ((a :: l).map g)).map
        (fun k => (((a :: l).filter (fun x => decide (g x = k))).map f).sum)).sum
        = (((a :: l).filter (fun x => decide (g x = g a))).map f).sum +
          (((dedupF (l.map g)).filter (fun b => decide (b ≠ g a))).map
            (fun k => (((a :: l).filter (fun x => decide (g x = k))).map f).sum)).sum := by
          simp [dedupF]
      _ = (f a + ((l.filter (fun x => decide (g x = g a))).map f).sum) +
          (((dedupF (l.map g)).filter (fun b => decide (b ≠ g a))).map
            (fun k => ((l.filter (fun x => decide (g x = k))).map f).sum)).sum := by
          rw [hhead, List.map_cons, List.sum_cons,
            List.map_congr_left htail]
      _ = f a + (l.map f).sum := by
          rw [← ih, ← hsplit, hnotp, hone]
          ring
      _ = ((a :: l).map f).sum := by simp

/-- The sum of the group revenues is the total revenue of all rows. -/
theorem countryTotal_eq (txns : List Txn) :
    countryTotalRevenue txns = (txns.map (fun x => x.totalPrice)).sum := by
  have h := sum_fiber (fun x : Txn => x.country) (fun x : Txn => x.totalPrice) txns
  exact h

theorem sum_map_mul_const {β : Type} (K : List β) (F : β → ℚ) (q : ℚ) :
    (K.map (fun c => F c * q)).sum = (K.map F).sum * q := by
  induction K with
  | nil => simp
  | cons b K ih =>
    simp only [List.map_cons, List.sum_cons, ih]
    ring

theorem abs_round2_sub (q : ℚ) : |round2 q - q| ≤ 1 / 200 := by
  have h := abs_sub_round (q * 100)
  rw [abs_sub_comm] at h
  have heq : round2 q - q = (((round (q * 100) : ℤ) : ℚ) - q * 100) / 100 := by
    unfold round2
    ring
  rw [heq, abs_div, abs_of_pos (by norm_num : (0:ℚ) < 100)]
  linarith

theorem sum_round2_bound {β : Type} (K : List β) (F : β → ℚ) :
    |(K.map (fun c => round2 (F c))).sum - (K.map F).sum| ≤ (K.length : ℚ) / 200 := by
  induction K with
  | nil => simp
  | cons b K ih =>
    simp only [List.map_cons, List.sum_cons, List.length_cons]
    have h1 := abs_round2_sub (F b)
    have hre : round2 (F b) + (K.map (fun c => round2 (F c))).sum -
        (F b + (K.map F).sum) = (round2 (F b) - F b) +
        ((K.map (fun c => round2 (F c))).sum - (K.map F).sum) := by ring
    rw [hre]
    have htri := abs_add (round2 (F b) - F b)
      ((K.map (fun c => round2 (F c))).sum - (K.map F).sum)
    push_cast
    linarith

/-- C8 (counterexample): six countries with equal revenue each get the
rounded share 16.67, so the RevenuePct column sums to 100.02 — outside
the claimed ±0.01 tolerance — although the input is non-empty with
positive total revenue. -/
theorem claim8_counterexample_rounding :
    TX6 ≠ [] ∧ 0 < (TX6.map (fun x => x.totalPrice)).sum ∧
    ((create_country_metrics TX6).map (fun m => m.revenuePct)).sum = 10002 / 100 ∧
    ¬(|((create_country_metrics TX6).map (fun m => m.revenuePct)).sum - 100| ≤
      1 / 100) := by decide

/-- C8 (amended): for a non-empty transaction table with positive total
revenue, the unrounded revenue shares sum to exactly 100; the rounded
RevenuePct column sums to 100 only within ±0.005 per country (the
two-decimal rounding can move each share by up to half a cent); and the
table is sorted by TotalRevenue descending. -/
theorem claim8_country_revenue_shares :
    ∀ txns : List Txn, txns ≠ [] →
      0 < (txns.map (fun x => x.totalPrice)).sum →
      ((countryKeys txns).map
        (fun c => countryRev txns c / countryTotalRevenue txns * 100)).sum = 100 ∧
      |((create_country_metrics txns).map (fun m => m.revenuePct)).sum - 100| ≤
        ((create_country_metrics txns).length : ℚ) / 200 ∧
      List.Sorted revGE (create_country_metrics txns) := by
  intro txns hne hpos
  have hT := countryTotal_eq txns
  have hTpos : 0 < countryTotalRevenue txns := by rw [hT]; exact hpos
  have hTne : countryTotalRevenue txns ≠ 0 := ne_of_gt hTpos
  have hexact : ((countryKeys txns).map
      (fun c => countryRev txns c / countryTotalRevenue txns * 100)).sum = 100 := by
    have hfun : (fun c => countryRev txns c / countryTotalRevenue txns * 100)
        = (fun c => countryRev txns c * (100 / countryTotalRevenue txns)) :=
      funext (fun c => by ring)
    rw [hfun, sum_map_mul_const]
    have hsum : ((countryKeys txns).map (fun c => countryRev txns c)).sum
        = countryTotalRevenue txns := rfl
    rw [hsum]
    field_simp
  refine ⟨hexact, ?_, List.sorted_insertionSort revGE _⟩
  have hperm : List.Perm (create_country_metrics txns)
      ((countryKeys txns).map (countryMetricRow txns)) :=
    List.perm_insertionSort revGE _
  have hsum1 : ((create_country_metrics txns).map (fun m => m.revenuePct)).sum
      = (((countryKeys txns).map (countryMetricRow txns)).map
          (fun m => m.revenuePct)).sum :=
    (hperm.map (fun m => m.revenuePct)).sum_eq
  have hsum2 : (((countryKeys txns).map (countryMetricRow txns)).map
      (fun m => m.revenuePct)).sum
      = ((countryKeys txns).map (fun c =>
          round2 (countryRev txns c / countryTotalRevenue txns * 100))).sum := by
    rw [List.map_map]
    rfl
  have hlen : (create_country_metrics txns).length = (countryKeys txns).length := by
    rw [hperm.length_eq, List.length_map]
  have hbound := sum_round2_bound (countryKeys txns)
    (fun c => countryRev txns c / countryTotalRevenue txns * 100)
  rw [hexact] at hbound
  rw [hsum1, hsum2, hlen]
  exact hbound

/-- C8 witness: the amended theorem applied to a concrete two-country
transaction list with positive total revenue. -/
theorem claim8_witness :
    ((countryKeys TXW).map
      (fun c => countryRev TXW c / countryTotalRevenue TXW * 100)).sum = 100 ∧
    |((create_country_metrics TXW).map (fun m => m.revenuePct)).sum - 100| ≤
      ((create_country_metrics TXW).length : ℚ) / 200 ∧
    List.Sorted revGE (create_country_metrics TXW) :=
  claim8_country_revenue_shares TXW (by decide) (by decide)

/-- C9 (confirmed): `classify_rfm` maps the composite R+F+M sum to a
label by the fixed thresholds 13 / 10 / 7 / 5, each label is produced
exactly on its threshold band, the label always lies in the five defined
categories, and `create_customer_segments` gives every customer exactly
one such label. -/
theorem claim9_segmentation :
    (∀ r f m : ℤ,
      classify_rfm r f m ∈
        (["Champions", "Loyal Customers", "Potential Loyalists", "At Risk",
          "Lost Customers"] : List String) ∧
      (classify_rfm r f m = "Champions" ↔ 13 ≤ r + f + m) ∧
      (classify_rfm r f m = "Loyal Customers" ↔ 10 ≤ r + f + m ∧ r + f + m < 13) ∧
      (classify_rfm r f m = "Potential Loyalists" ↔ 7 ≤ r + f + m ∧ r + f + m < 10) ∧
      (classify_rfm r f m = "At Risk" ↔ 5 ≤ r + f + m ∧ r + f + m < 7) ∧
      (classify_rfm r f m = "Lost Customers" ↔ r + f + m < 5)) ∧
    (∀ scs : List ScoredCustomer,
      (create_customer_segments scs).length = scs.length ∧
      ∀ sg ∈ create_customer_segments scs,
        sg.customerSegment =
          classify_rfm sg.scored.rScore sg.scored.fScore sg.scored.mScore) := by
  constructor
  · intro r f m
    unfold classify_rfm
    dsimp only
    split_ifs with h1 h2 h3 h4 <;>
      refine ⟨by simp, ?_, ?_, ?_, ?_, ?_⟩ <;>
      simp_all <;> omega
  · intro scs
    constructor
    · simp [create_customer_segments]
    · intro sg hsg
      simp only [create_customer_segments, List.mem_map] at hsg
      obtain ⟨sc, hsc, rfl⟩ := hsg
      rfl

/-- C9 witness: the threshold characterisation applied at the concrete
score triple (5,4,4) and the row-wise labelling applied to the scored
customers of `OUT7`. -/
theorem claim9_witness :
    classify_rfm 5 4 4 = "Champions" ∧
    (create_customer_segments OUT7).length = OUT7.length ∧
    ((create_customer_segments OUT7).getD 0 default).customerSegment =
      classify_rfm ((create_customer_segments OUT7).getD 0 default).scored.rScore
        ((create_customer_segments OUT7).getD 0 default).scored.fScore
        ((create_customer_segments OUT7).getD 0 default).scored.mScore :=
  ⟨(claim9_segmentation.1 5 4 4).2.1.mpr (by decide),
   (claim9_segmentation.2 OUT7).1,
   (claim9_segmentation.2 OUT7).2 ((create_customer_segments OUT7).getD 0 default)
     (by decide)⟩

/-- C10 (confirmed): each row-dropping operation that succeeds returns a
subsequence of the input rows — every surviving row is an input row with
all its cell values unchanged and the surviving rows keep their relative
order — and the column list is untouched. -/
theorem claim10_row_drops_are_subsequences :
    (∀ (t : Table) (ic mk : String) (out : Table),
      remove_cancelled_orders t ic mk = .ok out →
      out.rows.Sublist t.rows ∧ out.cols = t.cols) ∧
    (∀ (t : Table) (cs : List String) (how : String) (out : Table),
      remove_missing_values t cs how = .ok out →
      out.rows.Sublist t.rows ∧ out.cols = t.cols) ∧
    (∀ (t : Table) (qc : String) (mq : ℚ) (out : Table),
      remove_invalid_quantities t qc mq = .ok out →
      out.rows.Sublist t.rows ∧ out.cols = t.cols) ∧
    (∀ (t : Table) (pc : String) (mn mx : ℚ) (out : Table),
      remove_invalid_prices t pc mn mx = .ok out →
      out.rows.Sublist t.rows ∧ out.cols = t.cols) ∧
    (∀ (t : Table) (sub : Option (List String)) (keep : String) (out : Table),
      remove_duplicates t sub keep = .ok out →
      out.rows.Sublist t.rows ∧ out.cols = t.cols) :=
  ⟨fun t ic mk out h => rco_ok t ic mk out h,
   fun t cs how out h => ⟨(rmv_ok t cs how out h).1, (rmv_ok t cs how out h).2.1⟩,
   fun t qc mq out h => riq_ok t qc mq out h,
   fun t pc mn mx out h => rip_ok t pc mn mx out h,
   fun t sub keep out h => rd_ok t sub keep out h⟩

/-- C10 witness: all five operations applied to a concrete table whose
second row is dropped by each filter and whose third row is a duplicate. -/
theorem claim10_witness :
    (W10drop2.rows.Sublist W10.rows ∧ W10drop2.cols = W10.cols) ∧
    (W10drop2.rows.Sublist W10.rows ∧ W10drop2.cols = W10.cols) ∧
    (W10drop2.rows.Sublist W10.rows ∧ W10drop2.cols = W10.cols) ∧
    (W10drop2.rows.Sublist W10.rows ∧ W10drop2.cols = W10.cols) ∧
    (W10dedup.rows.Sublist W10.rows ∧ W10dedup.cols = W10.cols) :=
  ⟨claim10_row_drops_are_subsequences.1 W10 "InvoiceNo" "C" W10drop2 (by decide),
   claim10_row_drops_are_subsequences.2.1 W10 ["Description"] "any" W10drop2 (by decide),
   claim10_row_drops_are_subsequences.2.2.1 W10 "Quantity" 1 W10drop2 (by decide),
   claim10_row_drops_are_subsequences.2.2.2.1 W10 "UnitPrice" (1/100) 100000 W10drop2
     (by decide),
   claim10_row_drops_are_subsequences.2.2.2.2 W10 none "first" W10dedup (by decide)⟩

end ECom
